import Mathlib

/-!
Verification of the movie-theater queueing tutorial
(`real-python_simpy.ipynb`).

The notebook defines a small discrete-event simulation: a `Theater` class
holding three `simpy.Resource` pools, a per-customer generator
`go_to_movies`, a driver `run_theater` that seeds three customers at time
zero and then spawns one every `12/60` simulated minutes, and reporting
helpers `get_average_wait_time` / `calculate_wait_time` plus the input
parser `get_user_input` and the entry point `main`.

This file embeds those functions shallowly:

* Python strings become `List Char`; `str.isdigit` is modelled as the
  ASCII digit check; `int(...)` on digit strings is `pyInt`.
* Simulated time and wait-time samples are `ℚ` (the code uses floats; all
  constants are exact decimal fractions).
* The global `random` module is modelled as a stream of naturals plus a
  cursor (`Rng`); `random.randint` / `random.choice([True, False])`
  consume one draw.
* The per-customer generator `go_to_movies` becomes a small instruction
  program, and the simpy event loop becomes an explicit event-queue
  interpreter (`advance`, `handle`, `step`, `runUntil`) with the same
  observable scheduling: events are keyed by (time, priority, id), a
  `run(until := H)` stops before any event scheduled at time `≥ H`, and
  resources grant FIFO.
-/

/-! ## Model of the global `random` module -/

/-- Model of the state of the global `random` module: an infinite stream of
raw draws plus a cursor.  Each call to `randint` or `choice` consumes one
draw. -/
structure Rng where
  stream : Nat → Nat
  idx : Nat

/-- Model of `random.randint(a, b)`: an integer between `a` and `b`
inclusive, consuming one draw. -/
def randint (a b : Nat) (g : Rng) : Nat × Rng :=
  (a + g.stream g.idx % (b - a + 1), ⟨g.stream, g.idx + 1⟩)

/-- Model of `random.choice([True, False])`: one boolean draw. -/
def pyChoice (g : Rng) : Bool × Rng :=
  (g.stream g.idx % 2 == 0, ⟨g.stream, g.idx + 1⟩)

/-- Model of `random.seed(n)`: the global generator state is replaced by a
deterministic state computed from the seed alone. -/
def pySeed (n : Nat) : Rng :=
  ⟨fun i => (n + i) * (n + i + 1) / 2 + i, 0⟩

/-! ## `get_user_input` -/

/-- Model of Python `str.isdigit` on the entered staffing values: true iff
the string is nonempty and every character is an ASCII digit. -/
def pyIsDigit (s : List Char) : Bool :=
  !s.isEmpty && s.all fun ch => decide ('0' ≤ ch) && decide (ch ≤ '9')

/-- Model of Python `int(...)` applied to a digit string. -/
def pyInt (s : List Char) : Nat :=
  s.foldl (fun n ch => 10 * n + (ch.toNat - 48)) 0

/-- Embedding of `get_user_input`.  The three arguments are the strings
entered for `# of cashiers`, `# of servers`, `# of ushers`.  The first
component is the returned `params` list, the second records whether the
"Could not parse input" warning was printed. -/
def get_user_input (nc ns nu : List Char) : List Int × Bool :=
  if pyIsDigit nc && pyIsDigit ns && pyIsDigit nu then
    ([(pyInt nc : Int), (pyInt ns : Int), (pyInt nu : Int)], false)
  else
    ([1, 1, 1], true)

/-- Spec-side reading of "a non-negative integer (a digit string)": a
nonempty string of ASCII digits. -/
def NonnegIntString (s : List Char) : Prop :=
  s ≠ [] ∧ ∀ ch ∈ s, '0' ≤ ch ∧ ch ≤ '9'

instance (s : List Char) : Decidable (NonnegIntString s) := by
  unfold NonnegIntString; infer_instance

theorem pyIsDigit_iff (s : List Char) : pyIsDigit s = true ↔ NonnegIntString s := by
  simp [pyIsDigit, NonnegIntString, List.isEmpty_iff, List.all_eq_true]

/-! ## Reporting helpers -/

/-- Embedding of `get_average_wait_time`: `statistics.mean` of the sample
list (junk value `0` on the empty list, on which the library raises). -/
def get_average_wait_time (wait_times : List ℚ) : ℚ :=
  wait_times.sum / wait_times.length

/-- Model of Python `round` on a rational: round half to even. -/
def pyRound (q : ℚ) : Int :=
  if q - ⌊q⌋ < 1 / 2 then ⌊q⌋
  else if 1 / 2 < q - ⌊q⌋ then ⌊q⌋ + 1
  else if 2 ∣ ⌊q⌋ then ⌊q⌋ else ⌊q⌋ + 1

/-- Embedding of `calculate_wait_time`: `divmod(average_wait, 1)` splits the
mean into integer part and fractional part, the fractional part is scaled
to seconds, and both components are passed through `round`. -/
def calculate_wait_time (wait_times : List ℚ) : Int × Int :=
  let average_wait := get_average_wait_time wait_times
  let minutes : ℚ := (⌊average_wait⌋ : ℚ)
  let frac_minutes : ℚ := average_wait - (⌊average_wait⌋ : ℚ)
  let seconds : ℚ := frac_minutes * 60
  (pyRound minutes, pyRound seconds)

theorem pyRound_intCast (n : Int) : pyRound (n : ℚ) = n := by
  simp [pyRound]

/-! ## The theater and its resource pools -/

/-- Embedding of the state of a `simpy.Resource`: its fixed capacity, the
number of current users, and the FIFO queue of waiting customers
(identified by index). -/
structure Resource where
  capacity : Nat
  users : Nat
  queue : List Nat

/-- Model of `simpy.Resource(env, n)`. -/
def Resource.init (n : Nat) : Resource :=
  ⟨n, 0, []⟩

/-- Embedding of the `Theater` object: the three resource pools. -/
structure Theater where
  cashier : Resource
  usher : Resource
  server : Resource

/-- Embedding of `Theater.__init__`.  The parameter order is the one in the
notebook: `(env, num_cashiers, num_ushers, num_servers)`, and the body
assigns `self.cashier = Resource(env, num_cashiers)`,
`self.usher = Resource(env, num_ushers)`,
`self.server = Resource(env, num_servers)`. -/
def Theater.init (num_cashiers num_ushers num_servers : Nat) : Theater :=
  ⟨Resource.init num_cashiers, Resource.init num_ushers, Resource.init num_servers⟩

/-- Embedding of the construction step of `run_theater`, whose parameter
order is `(env, num_cashiers, num_servers, num_ushers)` and whose body
calls `Theater(env, num_cashiers, num_servers, num_ushers)` positionally. -/
def run_theater_theater (num_cashiers num_servers num_ushers : Nat) : Theater :=
  Theater.init num_cashiers num_servers num_ushers

/-! ## Claims about the pure helpers -/

/-- Claim C1: for every triple of entered strings, `get_user_input` falls
back to `[1, 1, 1]` and prints the warning whenever any of the three
strings fails the digit-string check, and otherwise returns the three
values parsed as integers in the order cashiers, servers, ushers. -/
theorem c1_get_user_input_validation (nc ns nu : List Char) :
    (¬(NonnegIntString nc ∧ NonnegIntString ns ∧ NonnegIntString nu) →
      get_user_input nc ns nu = ([1, 1, 1], true)) ∧
    ((NonnegIntString nc ∧ NonnegIntString ns ∧ NonnegIntString nu) →
      get_user_input nc ns nu =
        ([(pyInt nc : Int), (pyInt ns : Int), (pyInt nu : Int)], false)) := by
  constructor
  · intro h
    have hb : (pyIsDigit nc && pyIsDigit ns && pyIsDigit nu) = false := by
      by_contra hcon
      rw [Bool.not_eq_false, Bool.and_eq_true, Bool.and_eq_true] at hcon
      exact h ⟨(pyIsDigit_iff nc).1 hcon.1.1, (pyIsDigit_iff ns).1 hcon.1.2,
        (pyIsDigit_iff nu).1 hcon.2⟩
    simp [get_user_input, hb]
  · intro h
    have hb : (pyIsDigit nc && pyIsDigit ns && pyIsDigit nu) = true := by
      rw [Bool.and_eq_true, Bool.and_eq_true]
      exact ⟨⟨(pyIsDigit_iff nc).2 h.1, (pyIsDigit_iff ns).2 h.2.1⟩,
        (pyIsDigit_iff nu).2 h.2.2⟩
    simp [get_user_input, hb]

/-- Witness for C1: a concrete invalid triple (second entry `"x2"`) falls
back to the defaults, and a concrete valid triple parses in order. -/
theorem c1_get_user_input_validation_witness :
    get_user_input ['7'] ['x', '2'] ['3'] = ([1, 1, 1], true) ∧
    get_user_input ['4'] ['0'] ['1', '2'] = ([4, 0, 12], false) :=
  ⟨(c1_get_user_input_validation ['7'] ['x', '2'] ['3']).1 (by decide),
   (c1_get_user_input_validation ['4'] ['0'] ['1', '2']).2 (by decide)⟩

/-- Claim C9: the string `"0"` entered for each of the three parameters
passes validation and yields `[0, 0, 0]` with no fallback warning. -/
theorem c9_zero_staffing_accepted :
    get_user_input ['0'] ['0'] ['0'] = ([0, 0, 0], false) := by decide

/-- Claim C2 is false of the code: `run_theater` hands the entered server
count to the `num_ushers` position of `Theater.__init__` and the entered
usher count to the `num_servers` position.  With 1 cashier, 2 servers and
3 ushers entered, the usher pool gets capacity 2 and the concession pool
capacity 3, not 3 and 2 as the claim states. -/
theorem c2_pool_capacities_swapped :
    (run_theater_theater 1 2 3).cashier.capacity = 1 ∧
    (run_theater_theater 1 2 3).usher.capacity = 2 ∧
    (run_theater_theater 1 2 3).server.capacity = 3 ∧
    ¬((run_theater_theater 1 2 3).usher.capacity = 3 ∧
      (run_theater_theater 1 2 3).server.capacity = 2) := by
  refine ⟨rfl, rfl, rfl, ?_⟩
  intro h
  exact absurd h.1 (by decide)

/-- Claim C6: on a nonempty sample list the reported pair is the floor of
the arithmetic mean together with the fractional part scaled to seconds
and rounded; the mean is characterised by `mean * length = sum`. -/
theorem c6_calculate_wait_time_spec (wait_times : List ℚ) (h : wait_times ≠ []) :
    calculate_wait_time wait_times =
      (⌊get_average_wait_time wait_times⌋,
        pyRound ((get_average_wait_time wait_times -
          (⌊get_average_wait_time wait_times⌋ : ℚ)) * 60)) ∧
    get_average_wait_time wait_times * wait_times.length = wait_times.sum := by
  constructor
  · simp [calculate_wait_time, pyRound_intCast]
  · have hl : (wait_times.length : ℚ) ≠ 0 := by
      simpa using h
    field_simp [get_average_wait_time]

/-- Witness for C6: the singleton sample `3/2` reports 1 minute and 30
seconds, and its mean satisfies the mean equation. -/
theorem c6_calculate_wait_time_spec_witness :
    calculate_wait_time [(3 : ℚ)/2] =
      (⌊get_average_wait_time [(3 : ℚ)/2]⌋,
        pyRound ((get_average_wait_time [(3 : ℚ)/2] -
          (⌊get_average_wait_time [(3 : ℚ)/2]⌋ : ℚ)) * 60)) ∧
    get_average_wait_time [(3 : ℚ)/2] * ([(3 : ℚ)/2].length) = [(3 : ℚ)/2].sum :=
  c6_calculate_wait_time_spec [(3 : ℚ)/2] (by decide)

/-- Claim C10: on the sample list `[7.995]` the code reports 7 minutes and
60 seconds: the seconds component is not carried into the minutes, so the
reported pair is not a normalized minutes/seconds time. -/
theorem c10_seconds_can_reach_sixty :
    calculate_wait_time [(7995 : ℚ)/1000] = (7, 60) ∧
    ¬(calculate_wait_time [(7995 : ℚ)/1000]).2 ≤ 59 := by
  constructor
  · show ((pyRound _ : Int), (pyRound _ : Int)) = (7, 60)
    norm_num [calculate_wait_time, get_average_wait_time, pyRound]
  · intro h
    rw [show calculate_wait_time [(7995 : ℚ)/1000] = (7, 60) from by
      norm_num [calculate_wait_time, get_average_wait_time, pyRound]] at h
    exact absurd h (by decide)

/-! ## The customer process `go_to_movies` as an instruction program -/

/-- The three resource pools a customer can use. -/
inductive Res
  | cashier
  | usher
  | server
deriving DecidableEq

/-- The three service generators of `Theater`. -/
inductive Svc
  | purchase
  | check
  | food
deriving DecidableEq

/-- One step of the `go_to_movies` generator: request or release a
resource, run one of the theater's service generators, branch on the
concession coin flip, or append the wait-time sample. -/
inductive Instr
  | request (r : Res)
  | release (r : Res)
  | service (sv : Svc)
  | ifCoin (body : List Instr)
  | record

mutual

def Instr.weight : Instr → Nat
  | .request _ => 1
  | .release _ => 1
  | .service _ => 1
  | .ifCoin body => 1 + Instr.weightList body
  | .record => 1

def Instr.weightList : List Instr → Nat
  | [] => 0
  | i :: l => Instr.weight i + Instr.weightList l

end

theorem Instr.weightList_append (a b : List Instr) :
    Instr.weightList (a ++ b) = Instr.weightList a + Instr.weightList b := by
  induction a with
  | nil => simp [Instr.weightList]
  | cons i l ih => simp [Instr.weightList, ih]; omega

theorem Instr.weight_pos (i : Instr) : 0 < i.weight := by
  cases i <;> simp [Instr.weight]

/-- Embedding of `Theater.purchase_ticket`:
`yield self.env.timeout(random.randint(1, 3))`. -/
def purchase_ticket (g : Rng) : ℚ × Rng :=
  let (n, g') := randint 1 3 g
  ((n : ℚ), g')

/-- Embedding of `Theater.check_ticket`:
`yield self.env.timeout(3.0 / 60.0)`, a fixed duration that consumes no
randomness. -/
def check_ticket (g : Rng) : ℚ × Rng :=
  ((3 : ℚ) / 60, g)

/-- Embedding of `Theater.sell_food`:
`yield self.env.timeout(random.randint(1, 5))`. -/
def sell_food (g : Rng) : ℚ × Rng :=
  let (n, g') := randint 1 5 g
  ((n : ℚ), g')

/-- Dispatch from a service step to the corresponding generator. -/
def svcTime : Svc → Rng → ℚ × Rng
  | .purchase => purchase_ticket
  | .check => check_ticket
  | .food => sell_food

/-- Embedding of the body of `go_to_movies`: buy a ticket at the cashier,
have it checked by the usher, optionally (on a coin flip) buy food at the
concession stand, then record `env.now - arrival_time`. -/
def go_to_movies : List Instr :=
  [.request .cashier, .service .purchase, .release .cashier,
   .request .usher, .service .check, .release .usher,
   .ifCoin [.request .server, .service .food, .release .server],
   .record]

/-! ## The event-queue interpreter -/

/-- One simulated customer: the `arrival_time` captured when the process
starts, the remaining instructions (stored while the process is blocked),
and the time at which the process recorded its sample, if it has. -/
structure Customer where
  arrival : ℚ
  prog : List Instr
  depart : Option ℚ

def dfltCustomer : Customer :=
  ⟨0, [], none⟩

/-- What a pending event does when it fires: start the `run_theater`
process, start customer `c`'s `go_to_movies` process, resume a blocked
customer, or wake the arrival generator. -/
inductive EvKind
  | startTheater
  | start (c : Nat)
  | resume (c : Nat)
  | genWake
deriving DecidableEq

/-- A scheduled event: simpy orders its queue by (time, priority, event
id); `prio = 0` is simpy's `URGENT` (process initialization), `prio = 1`
its `NORMAL`. -/
structure Ev where
  time : ℚ
  prio : Nat
  eid : Nat
  kind : EvKind
deriving DecidableEq

/-- Lexicographic comparison on (time, priority, event id). -/
def evLE (a b : Ev) : Bool :=
  decide (a.time < b.time) ||
    (decide (a.time = b.time) &&
      (decide (a.prio < b.prio) ||
        (decide (a.prio = b.prio) && decide (a.eid ≤ b.eid))))

/-- Remove the queue's minimal event (the one simpy would pop). -/
def popMin : List Ev → Option (Ev × List Ev)
  | [] => none
  | e :: es =>
    match popMin es with
    | none => some (e, es)
    | some (m, r) => if evLE e m then some (e, es) else some (m, e :: r)

/-- The whole simulation state: clock, pending events, event-id counter,
the `random` module state, the theater's resource pools, the customers
spawned so far (indexed by moviegoer number), the module-level
`wait_times` list, and a log of (arrival, departure) pairs written each
time a sample is appended. -/
structure SimState where
  now : ℚ
  events : List Ev
  nextEid : Nat
  rng : Rng
  theater : Theater
  customers : List Customer
  wait_times : List ℚ
  doneLog : List (ℚ × ℚ)

def SimState.getRes (s : SimState) : Res → Resource
  | .cashier => s.theater.cashier
  | .usher => s.theater.usher
  | .server => s.theater.server

def SimState.setRes (s : SimState) : Res → Resource → SimState
  | .cashier, v => { s with theater := { s.theater with cashier := v } }
  | .usher, v => { s with theater := { s.theater with usher := v } }
  | .server, v => { s with theater := { s.theater with server := v } }

/-- Schedule a new event `delay` after the current time. -/
def SimState.schedule (s : SimState) (delay : ℚ) (prio : Nat) (k : EvKind) : SimState :=
  { s with
    events := s.events ++ [⟨s.now + delay, prio, s.nextEid, k⟩],
    nextEid := s.nextEid + 1 }

def SimState.getCust (s : SimState) (i : Nat) : Customer :=
  s.customers.getD i dfltCustomer

def SimState.setCust (s : SimState) (i : Nat) (c : Customer) : SimState :=
  { s with customers := s.customers.set i c }

/-- Run customer `cid`'s process until it blocks (on a resource queue or a
timeout), finishes, or records its sample.

* `request r`: take a free slot immediately, else join `r`'s FIFO queue.
* `release r`: hand the slot to the first queued customer (who is resumed
  by a zero-delay event at the current time, as simpy does), else free it.
* `service sv`: draw the service time and sleep until it has elapsed.
* `ifCoin body`: draw `random.choice([True, False])` and run `body` iff it
  came up `True`.
* `record`: append `env.now - arrival_time` to `wait_times`; the process
  ends here.

The `Nat` argument is a step budget that keeps the recursion structural;
the scheduler always passes `prog.length + 4`, which strictly exceeds the
number of instructions any suffix of `go_to_movies` can execute (its only
branch body holds three instructions), so the budget never runs out on a
reachable program. -/
def advance (cid : Nat) : Nat → SimState → List Instr → SimState
  | 0, s, _ => s
  | _ + 1, s, [] => s
  | fuel + 1, s, .request r :: rest =>
    let rs := s.getRes r
    if rs.users < rs.capacity then
      advance cid fuel (s.setRes r { rs with users := rs.users + 1 }) rest
    else
      (s.setRes r { rs with queue := rs.queue ++ [cid] }).setCust cid
        { s.getCust cid with prog := rest }
  | fuel + 1, s, .release r :: rest =>
    let rs := s.getRes r
    match rs.queue with
    | [] => advance cid fuel (s.setRes r { rs with users := rs.users - 1 }) rest
    | c :: q =>
      advance cid fuel ((s.setRes r { rs with queue := q }).schedule 0 1 (.resume c)) rest
  | _ + 1, s, .service sv :: rest =>
    let p := svcTime sv s.rng
    (({ s with rng := p.2 }).schedule p.1 1 (.resume cid)).setCust cid
      { s.getCust cid with prog := rest }
  | fuel + 1, s, .ifCoin body :: rest =>
    let p := pyChoice s.rng
    if p.1 then advance cid fuel { s with rng := p.2 } (body ++ rest)
    else advance cid fuel { s with rng := p.2 } rest
  | _ + 1, s, .record :: _ =>
    let c := s.getCust cid
    { s.setCust cid { c with prog := [], depart := some s.now } with
      wait_times := s.wait_times ++ [s.now - c.arrival],
      doneLog := s.doneLog ++ [(c.arrival, s.now)] }

/-- Spawn the next moviegoer: record the arrival, hand them the
`go_to_movies` program, and schedule their process start (simpy's
`Initialize` event, `URGENT` priority, zero delay). -/
def spawn (s : SimState) : SimState :=
  let cid := s.customers.length
  ({ s with customers := s.customers ++ [({ arrival := s.now, prog := go_to_movies, depart := none } : Customer)] }).schedule 0 0 (.start cid)

/-- Fire one event.  `startTheater` is the body of `run_theater` reaching
its loop: three moviegoers are waiting before the box office opens, then
the first inter-arrival timeout is issued.  Each `genWake` spawns one new
moviegoer and re-issues the `12/60`-minute timeout. -/
def handle (s : SimState) (e : Ev) : SimState :=
  match e.kind with
  | .startTheater => (spawn (spawn (spawn s))).schedule ((12 : ℚ)/60) 1 .genWake
  | .genWake => (spawn s).schedule ((12 : ℚ)/60) 1 .genWake
  | .start c => advance c ((s.getCust c).prog.length + 4) s (s.getCust c).prog
  | .resume c => advance c ((s.getCust c).prog.length + 4) s (s.getCust c).prog

/-- One iteration of simpy's event loop under `env.run(until := H)`: pop
the minimal event; if it is scheduled at or after the horizon the loop
stops (the horizon's stop event has `URGENT` priority and a smaller event
id, so it fires first), otherwise the clock jumps to the event's time and
the event fires. -/
def step (H : ℚ) (s : SimState) : Option SimState :=
  match popMin s.events with
  | none => none
  | some (e, rest) =>
    if H ≤ e.time then none
    else some (handle { s with events := rest, now := e.time } e)

/-- Fuelled iteration of `step`; once the loop stops the state is left
unchanged. -/
def runUntil (H : ℚ) : Nat → SimState → SimState
  | 0, s => s
  | fuel + 1, s =>
    match step H s with
    | none => s
    | some s' => runUntil H fuel s'

/-- The run has ended: the next event (if any) is at or past the horizon. -/
def Stopped (H : ℚ) (s : SimState) : Prop :=
  (step H s).isNone = true

instance (H : ℚ) (s : SimState) : Decidable (Stopped H s) :=
  inferInstanceAs (Decidable ((step H s).isNone = true))

/-- The state set up by `main` before `env.run`: a fresh environment whose
only pending event starts the `run_theater` process, the theater built by
`run_theater` from the parameters in `main`'s order `(num_cashiers,
num_servers, num_ushers)`, an empty `wait_times` list, and the given
`random` state. -/
def initSim (num_cashiers num_servers num_ushers : Nat) (g : Rng) : SimState where
  now := 0
  events := [⟨0, 0, 0, .startTheater⟩]
  nextEid := 1
  rng := g
  theater := run_theater_theater num_cashiers num_servers num_ushers
  customers := []
  wait_times := []
  doneLog := []

/-- Number of moviegoers spawned by the arrival generator (beyond the
three waiting at the start). -/
def spawnCount (s : SimState) : Nat :=
  s.customers.length - 3

/-- Number of customers whose `go_to_movies` process has completed. -/
def doneCount (s : SimState) : Nat :=
  s.customers.countP fun c => c.depart.isSome

/-- Embedding of `main`: `random.seed(0)` replaces whatever state `g` the
global `random` module had, the simulation is run with horizon `90`, and
the average wait is reported from the recorded samples. -/
def mainRun (fuel num_cashiers num_servers num_ushers : Nat) (g : Rng) :
    List ℚ × (Int × Int) :=
  let s := runUntil 90 fuel (initSim num_cashiers num_servers num_ushers (pySeed 0))
  (s.wait_times, calculate_wait_time s.wait_times)

/-! ## Single-customer trace semantics -/

/-- Observable actions of one customer's run, used to state claims about
the shape of `go_to_movies`. -/
inductive TraceAct
  | acq (r : Res)
  | wait (sv : Svc) (d : ℚ)
  | rel (r : Res)
  | recorded
deriving DecidableEq

/-- The sequence of actions one customer performs, abstracting away
queueing delays: acquisitions, timed waits with the drawn duration,
releases, and the final sample recording. -/
def localTrace : List Instr → Rng → List TraceAct × Rng
  | [], g => ([], g)
  | .request r :: rest, g =>
    let p := localTrace rest g
    (.acq r :: p.1, p.2)
  | .release r :: rest, g =>
    let p := localTrace rest g
    (.rel r :: p.1, p.2)
  | .service sv :: rest, g =>
    let (d, g1) := svcTime sv g
    let p := localTrace rest g1
    (.wait sv d :: p.1, p.2)
  | .ifCoin body :: rest, g =>
    let (b, g1) := pyChoice g
    if b then localTrace (body ++ rest) g1 else localTrace rest g1
  | .record :: _, g => ([.recorded], g)
termination_by prog _ => Instr.weightList prog
decreasing_by
  all_goals simp [Instr.weightList, Instr.weightList_append, Instr.weight]

/-! ## Claims about the simulation -/

/-- Claim C3: with the staffing parameters fixed, two executions of `main`
agree on the recorded wait-time samples and on the reported
minutes/seconds pair, whatever the prior state of the global `random`
module was in each execution, because `main` starts by calling
`random.seed(0)`. -/
theorem c3_deterministic_given_seed (fuel num_cashiers num_servers num_ushers : Nat)
    (g1 g2 : Rng) :
    mainRun fuel num_cashiers num_servers num_ushers g1 =
      mainRun fuel num_cashiers num_servers num_ushers g2 := rfl

/-- Claim C5 is false as stated: the usher's ticket check is not a randomly
drawn duration.  Under two generator states that demonstrably produce
different draws (they give different cashier times), `check_ticket` yields
the same fixed `3/60` minutes and leaves the draw cursor untouched, while
`purchase_ticket` consumes a draw. -/
theorem c5_check_ticket_not_random :
    (check_ticket ⟨fun _ => 0, 0⟩).1 = (check_ticket ⟨fun _ => 1, 0⟩).1 ∧
    (check_ticket ⟨fun _ => 0, 0⟩).1 = (3 : ℚ)/60 ∧
    (check_ticket ⟨fun _ => 0, 0⟩).2.idx = 0 ∧
    (purchase_ticket ⟨fun _ => 0, 0⟩).1 ≠ (purchase_ticket ⟨fun _ => 1, 0⟩).1 ∧
    (purchase_ticket ⟨fun _ => 0, 0⟩).2.idx = 1 := by
  refine ⟨rfl, by norm_num [check_ticket], rfl, ?_, rfl⟩
  simp only [purchase_ticket, randint]
  norm_num

/-- Claim C5 as amended: every customer's run is the sequence acquire
cashier, wait a drawn 1 to 3 minutes, release; acquire usher, wait the
fixed `3/60` minutes, release; then, only on the coin flip, acquire the
concession server, wait a drawn 1 to 5 minutes, release; and finally
record the sample. -/
theorem c5_amended_customer_steps (g : Rng) :
    ∃ (b : Bool) (n1 n5 : Nat),
      1 ≤ n1 ∧ n1 ≤ 3 ∧ 1 ≤ n5 ∧ n5 ≤ 5 ∧
      (localTrace go_to_movies g).1 =
        [.acq .cashier, .wait .purchase (n1 : ℚ), .rel .cashier,
         .acq .usher, .wait .check ((3 : ℚ)/60), .rel .usher] ++
        (if b then [.acq .server, .wait .food (n5 : ℚ), .rel .server] else []) ++
        [.recorded] := by
  refine ⟨g.stream (g.idx + 1) % 2 == 0, 1 + g.stream g.idx % 3,
    1 + g.stream (g.idx + 2) % 5, by omega, by omega, by omega, by omega, ?_⟩
  cases hb : g.stream (g.idx + 1) % 2 == 0 <;>
    simp [localTrace, go_to_movies, svcTime, purchase_ticket, check_ticket,
      sell_food, randint, pyChoice, hb]

/-- Claim C8: whether the concession step occurs is decided by the single
boolean draw `random.choice([True, False])` made after the ticket check:
on `True` the customer acquires the server and waits the food time, on
`False` the trace goes straight from releasing the usher to recording the
sample and never touches the server; exactly one coin draw (and one or two
service draws) is consumed. -/
theorem c8_concession_coin_flip (g : Rng) :
    ∃ (b : Bool) (d1 d2 : ℚ),
      (localTrace go_to_movies g).1 =
        [.acq .cashier, .wait .purchase d1, .rel .cashier,
         .acq .usher, .wait .check ((3 : ℚ)/60), .rel .usher] ++
        (if b then [.acq .server, .wait .food d2, .rel .server] else []) ++
        [.recorded] ∧
      b = (g.stream (g.idx + 1) % 2 == 0) ∧
      (localTrace go_to_movies g).2.idx = g.idx + (if b then 3 else 2) ∧
      (b = true → TraceAct.acq .server ∈ (localTrace go_to_movies g).1) ∧
      (b = false → TraceAct.acq .server ∉ (localTrace go_to_movies g).1) := by
  refine ⟨g.stream (g.idx + 1) % 2 == 0, ((1 + g.stream g.idx % 3 : Nat) : ℚ),
    ((1 + g.stream (g.idx + 2) % 5 : Nat) : ℚ), ?_, rfl, ?_, ?_, ?_⟩ <;>
  cases hb : g.stream (g.idx + 1) % 2 == 0 <;>
    simp [localTrace, go_to_movies, svcTime, purchase_ticket, check_ticket,
      sell_food, randint, pyChoice, hb]

/-! ## Order lemmas for the event queue -/

theorem evLE_iff (a b : Ev) :
    evLE a b = true ↔
      (a.time < b.time ∨
        (a.time = b.time ∧
          (a.prio < b.prio ∨ (a.prio = b.prio ∧ a.eid ≤ b.eid)))) := by
  simp [evLE]

theorem evLE_refl (a : Ev) : evLE a a = true := by
  rw [evLE_iff]; tauto

theorem evLE_total (a b : Ev) : evLE a b = true ∨ evLE b a = true := by
  rw [evLE_iff, evLE_iff]
  rcases lt_trichotomy a.time b.time with h | h | h
  · exact .inl (.inl h)
  · rcases Nat.lt_trichotomy a.prio b.prio with h2 | h2 | h2
    · exact .inl (.inr ⟨h, .inl h2⟩)
    · rcases Nat.le_total a.eid b.eid with h3 | h3
      · exact .inl (.inr ⟨h, .inr ⟨h2, h3⟩⟩)
      · exact .inr (.inr ⟨h.symm, .inr ⟨h2.symm, h3⟩⟩)
    · exact .inr (.inr ⟨h.symm, .inl h2⟩)
  · exact .inr (.inl h)

theorem evLE_trans {a b c : Ev} (h1 : evLE a b = true) (h2 : evLE b c = true) :
    evLE a c = true := by
  rw [evLE_iff] at h1 h2 ⊢
  rcases h1 with h1 | ⟨he1, h1⟩
  · rcases h2 with h2 | ⟨he2, _⟩
    · exact .inl (h1.trans h2)
    · exact .inl (he2 ▸ h1)
  · rcases h2 with h2 | ⟨he2, h2⟩
    · exact .inl (he1 ▸ h2)
    · exact .inr ⟨he1.trans he2, by omega⟩

theorem evLE_time_le {a b : Ev} (h : evLE a b = true) : a.time ≤ b.time := by
  rw [evLE_iff] at h
  rcases h with h | ⟨h, _⟩
  · exact le_of_lt h
  · exact le_of_eq h

theorem popMin_eq_none {l : List Ev} : popMin l = none ↔ l = [] := by
  cases l with
  | nil => simp [popMin]
  | cons e es =>
    simp only [popMin]
    cases popMin es with
    | none => simp
    | some p => cases p with | mk m r => simp only; split <;> simp

theorem popMin_perm : ∀ {l : List Ev} {e : Ev} {r : List Ev},
    popMin l = some (e, r) → l.Perm (e :: r) := by
  intro l
  induction l with
  | nil => intro e r h; simp [popMin] at h
  | cons a as ih =>
    intro e r h
    simp only [popMin] at h
    split at h
    · simp only [Option.some.injEq, Prod.mk.injEq] at h
      obtain ⟨rfl, rfl⟩ := h
      exact .refl _
    · next m rest hm =>
      split at h
      · simp only [Option.some.injEq, Prod.mk.injEq] at h
        obtain ⟨rfl, rfl⟩ := h
        exact .refl _
      · simp only [Option.some.injEq, Prod.mk.injEq] at h
        obtain ⟨rfl, rfl⟩ := h
        exact ((ih hm).cons a).trans (List.Perm.swap m a rest)

theorem popMin_min : ∀ {l : List Ev} {e : Ev} {r : List Ev},
    popMin l = some (e, r) → ∀ x ∈ l, evLE e x = true := by
  intro l
  induction l with
  | nil => intro e r h; simp [popMin] at h
  | cons a as ih =>
    intro e r h x hx
    simp only [popMin] at h
    split at h
    · next hm =>
      simp only [Option.some.injEq, Prod.mk.injEq] at h
      obtain ⟨rfl, rfl⟩ := h
      have has : as = [] := popMin_eq_none.1 hm
      rcases List.mem_cons.1 hx with hxa | hxas
      · rw [hxa]; exact evLE_refl a
      · rw [has] at hxas; simp at hxas
    · next m rest hm =>
      split at h
      · next hle =>
        simp only [Option.some.injEq, Prod.mk.injEq] at h
        obtain ⟨rfl, rfl⟩ := h
        rcases List.mem_cons.1 hx with hxa | hxas
        · rw [hxa]; exact evLE_refl a
        · exact evLE_trans hle (ih hm x hxas)
      · next hle =>
        simp only [Option.some.injEq, Prod.mk.injEq] at h
        obtain ⟨rfl, rfl⟩ := h
        rcases List.mem_cons.1 hx with hxa | hxas
        · rw [hxa]
          rcases evLE_total a m with ht | ht
          · exact absurd ht hle
          · exact ht
        · exact ih hm x hxas

/-! ## List helper lemmas -/

theorem countP_set_keep {α : Type} (p : α → Bool) :
    ∀ (l : List α) (i : Nat) (a : α) (h : i < l.length),
      p a = p (l.get ⟨i, h⟩) → (l.set i a).countP p = l.countP p := by
  intro l
  induction l with
  | nil => intro i a h; simp at h
  | cons x xs ih =>
    intro i a h hp
    cases i with
    | zero =>
      simp only [List.get] at hp
      simp [List.set, List.countP_cons, hp]
    | succ n =>
      simp only [List.get] at hp
      have hn : n < xs.length := by simpa using h
      simp [List.set, List.countP_cons, ih n a hn hp]

theorem countP_set_flip {α : Type} (p : α → Bool) :
    ∀ (l : List α) (i : Nat) (a : α) (h : i < l.length),
      p (l.get ⟨i, h⟩) = false → p a = true →
      (l.set i a).countP p = l.countP p + 1 := by
  intro l
  induction l with
  | nil => intro i a h; simp at h
  | cons x xs ih =>
    intro i a h hold hnew
    cases i with
    | zero =>
      simp only [List.get] at hold
      simp [List.set, List.countP_cons, hold, hnew]
    | succ n =>
      simp only [List.get] at hold
      have hn : n < xs.length := by simpa using h
      simp [List.set, List.countP_cons, ih n a hn hold hnew]
      omega

theorem map_set_invariant {α β : Type} (f : α → β) :
    ∀ (l : List α) (i : Nat) (a : α),
      (∀ h : i < l.length, f a = f (l.get ⟨i, h⟩)) →
      (l.set i a).map f = l.map f := by
  intro l
  induction l with
  | nil => intro i a _; rfl
  | cons x xs ih =>
    intro i a hf
    cases i with
    | zero =>
      have := hf (by simp)
      simp only [List.get] at this
      simp [List.set, this]
    | succ n =>
      simp only [List.set, List.map_cons, List.cons.injEq, true_and]
      exact ih n a fun h => by
        have := hf (by simpa using Nat.succ_lt_succ h)
        simpa [List.get] using this

/-! ## Shape of customer programs -/

mutual

def Instr.noRec : Instr → Bool
  | .request _ => true
  | .release _ => true
  | .service _ => true
  | .ifCoin body => Instr.noRecList body
  | .record => false

def Instr.noRecList : List Instr → Bool
  | [] => true
  | i :: l => i.noRec && Instr.noRecList l

end

theorem Instr.noRecList_append (a b : List Instr) :
    Instr.noRecList (a ++ b) = (Instr.noRecList a && Instr.noRecList b) := by
  induction a with
  | nil => simp [Instr.noRecList]
  | cons i l ih => simp [Instr.noRecList, ih, Bool.and_assoc]

/-- A well-formed customer continuation: some record-free prefix followed
by the final sample recording, the shape every suffix of `go_to_movies`
reachable by the interpreter has. -/
def WF (prog : List Instr) : Prop :=
  ∃ pre, prog = pre ++ [Instr.record] ∧ Instr.noRecList pre = true

theorem WF_go_to_movies : WF go_to_movies :=
  ⟨[.request .cashier, .service .purchase, .release .cashier,
    .request .usher, .service .check, .release .usher,
    .ifCoin [.request .server, .service .food, .release .server]],
   rfl, by rfl⟩

theorem WF_cons_elim {i : Instr} {rest : List Instr} (h : WF (i :: rest)) :
    (i = .record ∧ rest = []) ∨ (i.noRec = true ∧ WF rest) := by
  obtain ⟨pre, hp, hn⟩ := h
  cases pre with
  | nil =>
    simp only [List.nil_append, List.cons.injEq] at hp
    exact .inl ⟨hp.1, hp.2⟩
  | cons j pj =>
    simp only [List.cons_append, List.cons.injEq] at hp
    rw [Instr.noRecList, Bool.and_eq_true] at hn
    exact .inr ⟨hp.1 ▸ hn.1, pj, hp.2, hn.2⟩

theorem WF_ifCoin_true {body rest : List Instr} (h : WF (.ifCoin body :: rest)) :
    WF (body ++ rest) := by
  rcases WF_cons_elim h with ⟨hi, _⟩ | ⟨hn, pre, hp, hpre⟩
  · exact absurd hi (by simp)
  · rw [Instr.noRec] at hn
    exact ⟨body ++ pre, by rw [hp, List.append_assoc],
      by rw [Instr.noRecList_append, hn, hpre]; rfl⟩

theorem WF_record_nil {rest : List Instr} (h : WF (.record :: rest)) : rest = [] := by
  rcases WF_cons_elim h with ⟨_, hr⟩ | ⟨hn, _⟩
  · exact hr
  · exact absurd hn (by simp [Instr.noRec])

/-! ## State-field lemmas -/

@[simp] theorem setRes_customers (s : SimState) (r : Res) (v : Resource) :
    (s.setRes r v).customers = s.customers := by cases r <;> rfl

@[simp] theorem setRes_events (s : SimState) (r : Res) (v : Resource) :
    (s.setRes r v).events = s.events := by cases r <;> rfl

@[simp] theorem setRes_wait_times (s : SimState) (r : Res) (v : Resource) :
    (s.setRes r v).wait_times = s.wait_times := by cases r <;> rfl

@[simp] theorem setRes_doneLog (s : SimState) (r : Res) (v : Resource) :
    (s.setRes r v).doneLog = s.doneLog := by cases r <;> rfl

@[simp] theorem setRes_now (s : SimState) (r : Res) (v : Resource) :
    (s.setRes r v).now = s.now := by cases r <;> rfl

@[simp] theorem setRes_rng (s : SimState) (r : Res) (v : Resource) :
    (s.setRes r v).rng = s.rng := by cases r <;> rfl

@[simp] theorem schedule_customers (s : SimState) (d : ℚ) (p : Nat) (k : EvKind) :
    (s.schedule d p k).customers = s.customers := rfl

@[simp] theorem schedule_wait_times (s : SimState) (d : ℚ) (p : Nat) (k : EvKind) :
    (s.schedule d p k).wait_times = s.wait_times := rfl

@[simp] theorem schedule_doneLog (s : SimState) (d : ℚ) (p : Nat) (k : EvKind) :
    (s.schedule d p k).doneLog = s.doneLog := rfl

@[simp] theorem schedule_now (s : SimState) (d : ℚ) (p : Nat) (k : EvKind) :
    (s.schedule d p k).now = s.now := rfl

@[simp] theorem schedule_events (s : SimState) (d : ℚ) (p : Nat) (k : EvKind) :
    (s.schedule d p k).events = s.events ++ [⟨s.now + d, p, s.nextEid, k⟩] := rfl

@[simp] theorem setCust_events (s : SimState) (i : Nat) (c : Customer) :
    (s.setCust i c).events = s.events := rfl

@[simp] theorem setCust_wait_times (s : SimState) (i : Nat) (c : Customer) :
    (s.setCust i c).wait_times = s.wait_times := rfl

@[simp] theorem setCust_doneLog (s : SimState) (i : Nat) (c : Customer) :
    (s.setCust i c).doneLog = s.doneLog := rfl

@[simp] theorem setCust_now (s : SimState) (i : Nat) (c : Customer) :
    (s.setCust i c).now = s.now := rfl

@[simp] theorem setCust_customers (s : SimState) (i : Nat) (c : Customer) :
    (s.setCust i c).customers = s.customers.set i c := rfl

@[simp] theorem getCust_setRes (s : SimState) (r : Res) (v : Resource) (i : Nat) :
    (s.setRes r v).getCust i = s.getCust i := by
  cases r <;> rfl

@[simp] theorem getCust_schedule (s : SimState) (d : ℚ) (p : Nat) (k : EvKind) (i : Nat) :
    (s.schedule d p k).getCust i = s.getCust i := rfl

@[simp] theorem getCust_rng (s : SimState) (g : Rng) (i : Nat) :
    (SimState.getCust { s with rng := g } i) = s.getCust i := rfl

theorem getCust_eq_get (s : SimState) (i : Nat) (h : i < s.customers.length) :
    s.getCust i = s.customers.get ⟨i, h⟩ := by
  simp [SimState.getCust, List.getD_eq_getElem?_getD, List.getElem?_eq_getElem h]

theorem getCust_default (s : SimState) (i : Nat) (h : s.customers.length ≤ i) :
    s.getCust i = dfltCustomer := by
  simp [SimState.getCust, List.getD_eq_getElem?_getD, List.getElem?_eq_none h]

/-! ## The wait-time accounting invariant -/

def isGen (e : Ev) : Bool :=
  match e.kind with
  | .genWake => true
  | _ => false

def isStart (e : Ev) : Bool :=
  match e.kind with
  | .startTheater => true
  | _ => false

/-- Accounting invariant: the `wait_times` list is exactly the image of the
departure log, the log has one entry per completed customer, completed
customers have exhausted their program, running customers still have a
well-formed continuation, and every completed customer's (arrival,
departure) pair has been logged. -/
def InvA (s : SimState) : Prop :=
  s.wait_times = s.doneLog.map (fun e => e.2 - e.1)
  ∧ s.doneLog.length = doneCount s
  ∧ (∀ c ∈ s.customers, c.depart.isSome = true → c.prog = [])
  ∧ (∀ c ∈ s.customers, c.depart = none → WF c.prog)
  ∧ (∀ c ∈ s.customers, ∀ d, c.depart = some d → (c.arrival, d) ∈ s.doneLog)

theorem invA_of_fields {s t : SimState} (h : InvA s)
    (hw : t.wait_times = s.wait_times) (hd : t.doneLog = s.doneLog)
    (hc : t.customers = s.customers) : InvA t := by
  unfold InvA doneCount at h ⊢
  rw [hw, hd, hc]
  exact h

/-- What one customer step preserves: the invariant, plus the arrival
times, the customer count, the generator and start events, and the clock. -/
def AdvanceOut (s t : SimState) : Prop :=
  InvA t
  ∧ t.customers.map (fun c => c.arrival) = s.customers.map (fun c => c.arrival)
  ∧ t.customers.length = s.customers.length
  ∧ t.events.filter isGen = s.events.filter isGen
  ∧ t.events.filter isStart = s.events.filter isStart
  ∧ t.now = s.now

theorem advanceOut_compat {s s' t : SimState} (h : AdvanceOut s' t)
    (hc : s'.customers = s.customers)
    (hg : s'.events.filter isGen = s.events.filter isGen)
    (hs : s'.events.filter isStart = s.events.filter isStart)
    (hn : s'.now = s.now) : AdvanceOut s t := by
  obtain ⟨h1, h2, h3, h4, h5, h6⟩ := h
  exact ⟨h1, by rw [h2, hc], by rw [h3, hc], by rw [h4, hg], by rw [h5, hs],
    by rw [h6, hn]⟩

theorem WF_ne_nil : ¬ WF [] := by
  rintro ⟨pre, hp, _⟩
  simp at hp

theorem WF_weight_pos {prog : List Instr} (h : WF prog) :
    0 < Instr.weightList prog := by
  obtain ⟨pre, hp, _⟩ := h
  rw [hp, Instr.weightList_append]
  simp [Instr.weightList, Instr.weight]

theorem WF_cons_tail {i : Instr} {rest : List Instr} (h : WF (i :: rest))
    (hi : i ≠ .record) : WF rest := by
  rcases WF_cons_elim h with ⟨h1, _⟩ | ⟨_, h2⟩
  · exact absurd h1 hi
  · exact h2

/-- A blocked write: the customer's continuation is stored, nothing else
observable changes. -/
theorem blockWrite_out {s : SimState} {cid : Nat} {rest : List Instr} (t : SimState)
    (hA : InvA s) (hcid : cid < s.customers.length)
    (hdep : (s.getCust cid).depart = none) (hWFr : WF rest)
    (hw : t.wait_times = s.wait_times) (hd : t.doneLog = s.doneLog)
    (hc : t.customers = s.customers.set cid { s.getCust cid with prog := rest })
    (hg : t.events.filter isGen = s.events.filter isGen)
    (hs : t.events.filter isStart = s.events.filter isStart)
    (hn : t.now = s.now) :
    AdvanceOut s t := by
  obtain ⟨h1, h2, h3, h4, h5⟩ := hA
  have hget : s.getCust cid = s.customers.get ⟨cid, hcid⟩ := getCust_eq_get s cid hcid
  refine ⟨⟨?_, ?_, ?_, ?_, ?_⟩, ?_, ?_, hg, hs, hn⟩
  · rw [hw, hd, h1]
  · rw [hd]
    unfold doneCount
    rw [hc, countP_set_keep _ _ cid _ hcid (by rw [← hget])]
    exact h2
  · intro c hcmem hsome
    rw [hc] at hcmem
    rcases List.mem_or_eq_of_mem_set hcmem with hold | hnew
    · exact h3 c hold hsome
    · rw [hnew] at hsome
      simp [hdep] at hsome
  · intro c hcmem hnone
    rw [hc] at hcmem
    rcases List.mem_or_eq_of_mem_set hcmem with hold | hnew
    · exact h4 c hold hnone
    · rw [hnew]
      exact hWFr
  · intro c hcmem d hdep'
    rw [hc] at hcmem
    rcases List.mem_or_eq_of_mem_set hcmem with hold | hnew
    · rw [hd]
      exact h5 c hold d hdep'
    · rw [hnew] at hdep'
      simp [hdep] at hdep'
  · rw [hc]
    exact map_set_invariant _ _ _ _ fun h => by rw [getCust_eq_get s cid h]
  · rw [hc]
    simp

/-- A recording write: the sample and log entry are appended and the
customer is marked departed. -/
theorem recordWrite_out {s : SimState} {cid : Nat} (t : SimState)
    (hA : InvA s) (hcid : cid < s.customers.length)
    (hdep : (s.getCust cid).depart = none)
    (hw : t.wait_times = s.wait_times ++ [s.now - (s.getCust cid).arrival])
    (hd : t.doneLog = s.doneLog ++ [((s.getCust cid).arrival, s.now)])
    (hc : t.customers = s.customers.set cid
      { s.getCust cid with prog := [], depart := some s.now })
    (hg : t.events.filter isGen = s.events.filter isGen)
    (hs : t.events.filter isStart = s.events.filter isStart)
    (hn : t.now = s.now) : AdvanceOut s t := by
  obtain ⟨h1, h2, h3, h4, h5⟩ := hA
  have hget := getCust_eq_get s cid hcid
  refine ⟨⟨?_, ?_, ?_, ?_, ?_⟩, ?_, ?_, hg, hs, hn⟩
  · rw [hw, hd, h1]
    simp
  · rw [hd]
    unfold doneCount
    rw [hc, countP_set_flip _ _ cid _ hcid (by rw [← hget, hdep]; rfl) rfl]
    simp only [List.length_append, List.length_singleton]
    unfold doneCount at h2
    omega
  · intro c hcmem hsome
    rw [hc] at hcmem
    rcases List.mem_or_eq_of_mem_set hcmem with hold | hnew
    · exact h3 c hold hsome
    · rw [hnew]
  · intro c hcmem hnone
    rw [hc] at hcmem
    rcases List.mem_or_eq_of_mem_set hcmem with hold | hnew
    · exact h4 c hold hnone
    · rw [hnew] at hnone
      simp at hnone
  · intro c hcmem d hdep'
    rw [hc] at hcmem
    rcases List.mem_or_eq_of_mem_set hcmem with hold | hnew
    · rw [hd]
      exact List.mem_append_left _ (h5 c hold d hdep')
    · rw [hd]
      refine List.mem_append_right _ ?_
      rw [hnew] at hdep' ⊢
      simp at hdep'
      simp [hdep']
  · rw [hc]
    exact map_set_invariant _ _ _ _ fun h => by rw [getCust_eq_get s cid h]
  · rw [hc]
    simp

/-- Core preservation lemma: running one customer (for any step budget)
keeps the accounting invariant and does not change arrivals, the customer
count, the generator or start events, or the clock. -/
theorem advance_spec : ∀ (fuel : Nat) (prog : List Instr) (cid : Nat) (s : SimState),
    WF prog → InvA s →
    cid < s.customers.length → (s.getCust cid).depart = none →
    AdvanceOut s (advance cid fuel s prog) := by
  intro fuel
  induction fuel with
  | zero =>
    intro prog cid s hWF hA hcid hdep
    exact ⟨hA, rfl, rfl, rfl, rfl, rfl⟩
  | succ n ih =>
    intro prog cid s hWF hA hcid hdep
    cases prog with
    | nil => exact ⟨hA, rfl, rfl, rfl, rfl, rfl⟩
    | cons i rest =>
      cases i with
      | request r =>
        have hWFr : WF rest := WF_cons_tail hWF (by simp)
        simp only [advance]
        split
        · exact advanceOut_compat
            (ih rest cid _ hWFr
              (invA_of_fields hA (by simp) (by simp) (by simp))
              (by simpa using hcid) (by simpa using hdep))
            (by simp) (by simp) (by simp) (by simp)
        · exact blockWrite_out _ hA hcid hdep hWFr (by simp) (by simp) (by simp)
            (by simp) (by simp) (by simp)
      | release r =>
        have hWFr : WF rest := WF_cons_tail hWF (by simp)
        simp only [advance]
        split
        · exact advanceOut_compat
            (ih rest cid _ hWFr
              (invA_of_fields hA (by simp) (by simp) (by simp))
              (by simpa using hcid) (by simpa using hdep))
            (by simp) (by simp) (by simp) (by simp)
        · exact advanceOut_compat
            (ih rest cid _ hWFr
              (invA_of_fields hA (by simp) (by simp) (by simp))
              (by simpa using hcid) (by simpa using hdep))
            (by simp) (by simp [List.filter_append, isGen])
            (by simp [List.filter_append, isStart]) (by simp)
      | service sv =>
        have hWFr : WF rest := WF_cons_tail hWF (by simp)
        simp only [advance]
        exact blockWrite_out _ hA hcid hdep hWFr (by simp) (by simp) (by simp)
          (by simp [List.filter_append, isGen])
          (by simp [List.filter_append, isStart]) (by simp)
      | ifCoin body =>
        have hWFbr : WF (body ++ rest) := WF_ifCoin_true hWF
        have hWFr : WF rest := WF_cons_tail hWF (by simp)
        simp only [advance]
        split
        · exact advanceOut_compat
            (ih (body ++ rest) cid _ hWFbr
              (invA_of_fields hA rfl rfl rfl)
              (by simpa using hcid) (by simpa using hdep))
            rfl rfl rfl rfl
        · exact advanceOut_compat
            (ih rest cid _ hWFr
              (invA_of_fields hA rfl rfl rfl)
              (by simpa using hcid) (by simpa using hdep))
            rfl rfl rfl rfl
      | record =>
        simp only [advance]
        exact recordWrite_out _ hA hcid hdep (by simp) (by simp) (by simp)
          (by simp) (by simp) (by simp)

/-! ## The arrival-schedule invariant -/

/-- Time at which the generator's `k`-th wake-up fires (`k` counted from
zero): spawn number `k + 1` happens `12/60` minutes after spawn `k`. -/
def stepTime (k : Nat) : ℚ :=
  ((k + 1 : Nat) : ℚ) / 5

/-- Arrival times after `n` generator spawns: the three customers of time
zero followed by one arrival every `12/60` minutes. -/
def arrivalPattern (n : Nat) : List ℚ :=
  [0, 0, 0] ++ (List.range n).map stepTime

theorem stepTime_succ (n : Nat) : stepTime n + (12 : ℚ)/60 = stepTime (n + 1) := by
  unfold stepTime
  push_cast
  ring

theorem stepTime_nonneg (k : Nat) : 0 ≤ stepTime k := by
  unfold stepTime
  positivity

theorem arrivalPattern_succ (n : Nat) :
    arrivalPattern (n + 1) = arrivalPattern n ++ [stepTime n] := by
  simp [arrivalPattern, List.range_succ]

/-- Generator invariant: either the `run_theater` process has not started
yet (the initial state), or the three time-zero customers exist, customer
arrivals follow the fixed schedule, all spawns happened before the
horizon, and exactly one generator wake-up is pending, at the next
scheduled spawn time. -/
def InvB (H : ℚ) (s : SimState) : Prop :=
  (s.events = [⟨0, 0, 0, EvKind.startTheater⟩] ∧ s.customers = [])
  ∨ (0 < H
     ∧ s.events.filter isStart = []
     ∧ s.customers.map (fun c => c.arrival) = arrivalPattern (spawnCount s)
     ∧ 3 ≤ s.customers.length
     ∧ (∀ k < spawnCount s, stepTime k < H)
     ∧ (∃ t, s.events.filter isGen = [t] ∧ t.time = stepTime (spawnCount s)))

@[simp] theorem spawn_customers (s : SimState) :
    (spawn s).customers =
      s.customers ++ [{ arrival := s.now, prog := go_to_movies, depart := none }] := rfl

@[simp] theorem spawn_wait_times (s : SimState) :
    (spawn s).wait_times = s.wait_times := rfl

@[simp] theorem spawn_doneLog (s : SimState) :
    (spawn s).doneLog = s.doneLog := rfl

@[simp] theorem spawn_now (s : SimState) : (spawn s).now = s.now := rfl

@[simp] theorem spawn_events (s : SimState) :
    (spawn s).events =
      s.events ++ [⟨s.now + 0, 0, s.nextEid, .start s.customers.length⟩] := rfl

@[simp] theorem spawn_nextEid (s : SimState) : (spawn s).nextEid = s.nextEid + 1 := rfl

@[simp] theorem schedule_nextEid (s : SimState) (d : ℚ) (p : Nat) (k : EvKind) :
    (s.schedule d p k).nextEid = s.nextEid + 1 := rfl

theorem invA_shift {s : SimState} (h : InvA s) (ev : List Ev) (n : ℚ) :
    InvA { s with events := ev, now := n } :=
  invA_of_fields h rfl rfl rfl

theorem invA_schedule {s : SimState} (h : InvA s) (d : ℚ) (p : Nat) (k : EvKind) :
    InvA (s.schedule d p k) :=
  invA_of_fields h rfl rfl rfl

theorem invA_spawn {s : SimState} (h : InvA s) : InvA (spawn s) := by
  obtain ⟨h1, h2, h3, h4, h5⟩ := h
  refine ⟨by simpa using h1, ?_, ?_, ?_, ?_⟩
  · unfold doneCount at h2 ⊢
    simp only [spawn_doneLog, spawn_customers, List.countP_append]
    simp [h2]
  · intro c hc hsome
    simp only [spawn_customers, List.mem_append, List.mem_singleton] at hc
    rcases hc with hc | hc
    · exact h3 c hc hsome
    · rw [hc] at hsome
      simp at hsome
  · intro c hc hnone
    simp only [spawn_customers, List.mem_append, List.mem_singleton] at hc
    rcases hc with hc | hc
    · exact h4 c hc hnone
    · rw [hc]
      exact WF_go_to_movies
  · intro c hc d hd
    simp only [spawn_customers, List.mem_append, List.mem_singleton] at hc
    rcases hc with hc | hc
    · exact h5 c hc d hd
    · rw [hc] at hd
      simp at hd

theorem invB_post_of_fields {H : ℚ} {s t : SimState} {gw : Ev}
    (hH : 0 < H)
    (hmap : s.customers.map (fun x => x.arrival) = arrivalPattern (spawnCount s))
    (hlen : 3 ≤ s.customers.length)
    (hbound : ∀ k < spawnCount s, stepTime k < H)
    (hgwt : gw.time = stepTime (spawnCount s))
    (hcm : t.customers.map (fun x => x.arrival) = s.customers.map (fun x => x.arrival))
    (hcl : t.customers.length = s.customers.length)
    (hfG : t.events.filter isGen = [gw])
    (hfS : t.events.filter isStart = []) : InvB H t := by
  have hsc : spawnCount t = spawnCount s := by unfold spawnCount; omega
  refine Or.inr ⟨hH, hfS, ?_, by omega, ?_, gw, hfG, ?_⟩
  · rw [hcm, hmap, hsc]
  · rw [hsc]; exact hbound
  · rw [hsc]; exact hgwt

/-- A customer event either advances a live customer (yielding the full
`AdvanceOut` relation) or hits a finished or unknown customer and leaves
the state unchanged. -/
theorem customer_event_out {s' : SimState} (c : Nat) (hA : InvA s') :
    AdvanceOut s' (advance c ((s'.getCust c).prog.length + 4) s' (s'.getCust c).prog) ∨
      advance c ((s'.getCust c).prog.length + 4) s' (s'.getCust c).prog = s' := by
  by_cases hp : (s'.getCust c).prog = []
  · right
    rw [hp]
    simp [advance]
  · left
    have hc : c < s'.customers.length := by
      by_contra hcon
      push_neg at hcon
      rw [getCust_default s' c hcon] at hp
      exact hp rfl
    have hmem : s'.getCust c ∈ s'.customers := by
      rw [getCust_eq_get s' c hc]
      exact List.get_mem _ _ _
    have hdep : (s'.getCust c).depart = none := by
      cases hdd : (s'.getCust c).depart with
      | none => rfl
      | some d =>
        have := hA.2.2.1 _ hmem (by rw [hdd]; rfl)
        exact absurd this hp
    have hWF : WF (s'.getCust c).prog := hA.2.2.2.1 _ hmem hdep
    exact advance_spec _ _ c s' hWF hA hc hdep

/-- One event-loop iteration preserves both invariants. -/
theorem step_preserves {H : ℚ} {s t : SimState} (hstep : step H s = some t)
    (hA : InvA s) (hB : InvB H s) : InvA t ∧ InvB H t := by
  unfold step at hstep
  split at hstep
  · exact absurd hstep (by simp)
  · next e rest hpop =>
    split at hstep
    · exact absurd hstep (by simp)
    · next hle =>
      injection hstep with ht
      subst ht
      push_neg at hle
      have hperm := popMin_perm hpop
      have hemem : e ∈ s.events := hperm.mem_iff.2 (List.mem_cons_self _ _)
      rcases hB with ⟨hev, hcus⟩ | ⟨hH, hfS, hmap, hlen, hbound, gw, hfG, hgwt⟩
      · -- the start event is the only pending event
        rw [hev] at hpop
        simp only [popMin, Option.some.injEq, Prod.mk.injEq] at hpop
        obtain ⟨he, hrest⟩ := hpop
        subst he
        subst hrest
        have hH : 0 < H := by simpa using hle
        constructor
        · exact invA_schedule (invA_spawn (invA_spawn (invA_spawn
            (invA_shift hA [] 0)))) _ _ _
        · refine Or.inr ⟨hH, ?_, ?_, ?_, ?_, ?_⟩
          · simp [handle, SimState.schedule, List.filter_append, isStart, isGen, hcus]
          · simp [handle, SimState.schedule, spawnCount, arrivalPattern, hcus]
          · simp [handle, SimState.schedule, hcus]
          · simp [handle, SimState.schedule, spawnCount, hcus]
          · refine ⟨⟨(0 : ℚ) + (12 : ℚ)/60, 1, s.nextEid + 1 + 1 + 1, .genWake⟩, ?_, ?_⟩
            · simp [handle, SimState.schedule, List.filter_append, isStart, isGen, hcus]
            · simp [handle, SimState.schedule, spawnCount, hcus, stepTime]
              norm_num
      · -- the run_theater process has started
        cases hk : e.kind with
        | startTheater =>
          exfalso
          have hm : e ∈ s.events.filter isStart :=
            List.mem_filter.2 ⟨hemem, by simp [isStart, hk]⟩
          rw [hfS] at hm
          simp at hm
        | genWake =>
          have hee : e = gw := by
            have hm : e ∈ s.events.filter isGen :=
              List.mem_filter.2 ⟨hemem, by simp [isGen, hk]⟩
            rw [hfG] at hm
            simpa using hm
          have hfr : rest.filter isGen = [] := by
            have hp2 := hperm.filter isGen
            rw [hfG] at hp2
            have hcons : List.filter isGen (e :: rest) = e :: rest.filter isGen := by
              simp [List.filter_cons, isGen, hk]
            rw [hcons, hee] at hp2
            exact (hp2.cons_inv.symm.eq_nil)
          have hfsr : rest.filter isStart = [] := by
            have hp2 := hperm.filter isStart
            rw [hfS] at hp2
            have hcons : List.filter isStart (e :: rest) = rest.filter isStart := by
              simp [List.filter_cons, isStart, hk]
            rw [hcons] at hp2
            exact hp2.symm.eq_nil
          have hhandle : handle { s with events := rest, now := e.time } e =
              (spawn { s with events := rest, now := e.time }).schedule
                ((12 : ℚ)/60) 1 .genWake := by
            simp [handle, hk]
          rw [hhandle]
          have hsc1 : spawnCount ((spawn { s with events := rest, now := e.time }).schedule
              ((12 : ℚ)/60) 1 .genWake) = spawnCount s + 1 := by
            unfold spawnCount
            simp
            omega
          constructor
          · exact invA_schedule (invA_spawn (invA_shift hA rest e.time)) _ _ _
          · refine Or.inr ⟨hH, ?_, ?_, ?_, ?_, ?_⟩
            · simp [SimState.schedule, List.filter_append, isStart, isGen, hfsr]
            · rw [hsc1]
              simp only [schedule_customers, spawn_customers, List.map_append]
              rw [hmap, arrivalPattern_succ]
              simp [hee, hgwt]
            · simp
              omega
            · rw [hsc1]
              intro k hkk
              rcases Nat.lt_or_ge k (spawnCount s) with hlt2 | hge
              · exact hbound k hlt2
              · have hkeq : k = spawnCount s := by omega
                rw [hkeq, ← hgwt, ← hee]
                exact hle
            · refine ⟨⟨e.time + (12 : ℚ)/60, 1, s.nextEid + 1, .genWake⟩, ?_, ?_⟩
              · simp [SimState.schedule, List.filter_append, isStart, isGen, hfr]
              · rw [hsc1]
                simp only
                rw [hee, hgwt]
                exact stepTime_succ _
        | start c =>
          have hfr : rest.filter isGen = [gw] := by
            have hp2 := hperm.filter isGen
            rw [hfG] at hp2
            have hcons : List.filter isGen (e :: rest) = rest.filter isGen := by
              simp [List.filter_cons, isGen, hk]
            rw [hcons] at hp2
            exact (List.singleton_perm.1 hp2).symm ▸ rfl
          have hfsr : rest.filter isStart = [] := by
            have hp2 := hperm.filter isStart
            rw [hfS] at hp2
            have hcons : List.filter isStart (e :: rest) = rest.filter isStart := by
              simp [List.filter_cons, isStart, hk]
            rw [hcons] at hp2
            exact hp2.symm.eq_nil
          have hhandle : handle { s with events := rest, now := e.time } e =
              advance c
                ((SimState.getCust { s with events := rest, now := e.time } c).prog.length + 4)
                { s with events := rest, now := e.time }
                ((SimState.getCust { s with events := rest, now := e.time } c).prog) := by
            simp [handle, hk]
          rw [hhandle]
          have hA' : InvA { s with events := rest, now := e.time } :=
            invA_shift hA rest e.time
          rcases customer_event_out c hA' with hout | heq
          · obtain ⟨hI, hm2, hl2, hg2, hs2, _⟩ := hout
          
            exact ⟨hI, invB_post_of_fields hH hmap hlen hbound hgwt
              (by rw [hm2]) (by rw [hl2]) (by rw [hg2]; exact hfr)
              (by rw [hs2]; exact hfsr)⟩
          · rw [heq]
            exact ⟨hA', invB_post_of_fields hH hmap hlen hbound hgwt
              rfl rfl hfr hfsr⟩
        | resume c =>
          have hfr : rest.filter isGen = [gw] := by
            have hp2 := hperm.filter isGen
            rw [hfG] at hp2
            have hcons : List.filter isGen (e :: rest) = rest.filter isGen := by
              simp [List.filter_cons, isGen, hk]
            rw [hcons] at hp2
            exact (List.singleton_perm.1 hp2).symm ▸ rfl
          have hfsr : rest.filter isStart = [] := by
            have hp2 := hperm.filter isStart
            rw [hfS] at hp2
            have hcons : List.filter isStart (e :: rest) = rest.filter isStart := by
              simp [List.filter_cons, isStart, hk]
            rw [hcons] at hp2
            exact hp2.symm.eq_nil
          have hhandle : handle { s with events := rest, now := e.time } e =
              advance c
                ((SimState.getCust { s with events := rest, now := e.time } c).prog.length + 4)
                { s with events := rest, now := e.time }
                ((SimState.getCust { s with events := rest, now := e.time } c).prog) := by
            simp [handle, hk]
          rw [hhandle]
          have hA' : InvA { s with events := rest, now := e.time } :=
            invA_shift hA rest e.time
          rcases customer_event_out c hA' with hout | heq
          · obtain ⟨hI, hm2, hl2, hg2, hs2, _⟩ := hout
            exact ⟨hI, invB_post_of_fields hH hmap hlen hbound hgwt
              (by rw [hm2]) (by rw [hl2]) (by rw [hg2]; exact hfr)
              (by rw [hs2]; exact hfsr)⟩
          · rw [heq]
            exact ⟨hA', invB_post_of_fields hH hmap hlen hbound hgwt
              rfl rfl hfr hfsr⟩

theorem init_invA (nc ns nu : Nat) (g : Rng) : InvA (initSim nc ns nu g) := by
  refine ⟨rfl, rfl, ?_, ?_, ?_⟩ <;> intro c hc <;> simp [initSim] at hc

theorem init_invB (H : ℚ) (nc ns nu : Nat) (g : Rng) : InvB H (initSim nc ns nu g) :=
  Or.inl ⟨rfl, rfl⟩

theorem runUntil_inv (H : ℚ) (fuel : Nat) :
    ∀ s : SimState, InvA s → InvB H s →
      InvA (runUntil H fuel s) ∧ InvB H (runUntil H fuel s) := by
  induction fuel with
  | zero => intro s hA hB; exact ⟨hA, hB⟩
  | succ n ih =>
    intro s hA hB
    unfold runUntil
    cases hst : step H s with
    | none => exact ⟨hA, hB⟩
    | some s' =>
      obtain ⟨hA', hB'⟩ := step_preserves hst hA hB
      exact ih s' hA' hB'

/-- The simulation state after `fuel` event-loop iterations of a run with
horizon `H`; `main` runs it with `H = 90`. -/
def simRunH (H : ℚ) (fuel num_cashiers num_servers num_ushers : Nat) (g : Rng) : SimState :=
  runUntil H fuel (initSim num_cashiers num_servers num_ushers g)

/-- Claim C4: at every point of `main`'s run (horizon 90), the `wait_times`
list has exactly one entry per customer whose `go_to_movies` process has
completed, the entries are exactly the logged departure minus arrival
times, and every completed customer's (arrival, departure) pair is in the
log; customers still in progress have contributed nothing. -/
theorem c4_wait_times_accounting (fuel num_cashiers num_servers num_ushers : Nat)
    (g : Rng) :
    (simRunH 90 fuel num_cashiers num_servers num_ushers g).wait_times.length =
      doneCount (simRunH 90 fuel num_cashiers num_servers num_ushers g) ∧
    (simRunH 90 fuel num_cashiers num_servers num_ushers g).wait_times =
      (simRunH 90 fuel num_cashiers num_servers num_ushers g).doneLog.map
        (fun e => e.2 - e.1) ∧
    (∀ i d,
      ((simRunH 90 fuel num_cashiers num_servers num_ushers g).getCust i).depart =
          some d →
        (((simRunH 90 fuel num_cashiers num_servers num_ushers g).getCust i).arrival, d) ∈
          (simRunH 90 fuel num_cashiers num_servers num_ushers g).doneLog) := by
  unfold simRunH
  obtain ⟨⟨h1, h2, h3, h4, h5⟩, _⟩ :=
    runUntil_inv 90 fuel (initSim num_cashiers num_servers num_ushers g)
      (init_invA num_cashiers num_servers num_ushers g)
      (init_invB 90 num_cashiers num_servers num_ushers g)
  refine ⟨?_, h1, ?_⟩
  · rw [h1, List.length_map, h2]
  · intro i d hd
    by_cases hlen :
        i < (runUntil 90 fuel (initSim num_cashiers num_servers num_ushers g)).customers.length
    · rw [getCust_eq_get _ i hlen] at hd ⊢
      exact h5 _ (List.get_mem _ _ _) d hd
    · push_neg at hlen
      rw [getCust_default _ i hlen] at hd
      simp [dfltCustomer] at hd

/-- Claim C7: customer arrivals consist of the three time-zero customers
followed by one injection exactly every `12/60 = 0.2` minutes, every
arrival is strictly before the horizon, and in a finished run with horizon
`H > 0` the generator's next wake-up is at or past the horizon, the spawns
number exactly `⌈5H⌉ - 1`, and with `main`'s horizon 90 exactly 449
spawned customers (452 in all); no customer is injected at or after the
horizon. -/
theorem c7_arrival_schedule (H : ℚ) (fuel num_cashiers num_servers num_ushers : Nat)
    (g : Rng) :
    ((simRunH H fuel num_cashiers num_servers num_ushers g).customers.map
        (fun c => c.arrival) = [] ∨
      (simRunH H fuel num_cashiers num_servers num_ushers g).customers.map
        (fun c => c.arrival) =
        arrivalPattern (spawnCount (simRunH H fuel num_cashiers num_servers num_ushers g))) ∧
    (∀ a ∈ (simRunH H fuel num_cashiers num_servers num_ushers g).customers.map
        (fun c => c.arrival), 0 ≤ a ∧ a < H) ∧
    (Stopped H (simRunH H fuel num_cashiers num_servers num_ushers g) → 0 < H →
      H ≤ stepTime (spawnCount (simRunH H fuel num_cashiers num_servers num_ushers g)) ∧
      (∀ k < spawnCount (simRunH H fuel num_cashiers num_servers num_ushers g),
        stepTime k < H) ∧
      spawnCount (simRunH H fuel num_cashiers num_servers num_ushers g) =
        (⌈5 * H⌉ - 1).toNat ∧
      (H = 90 →
        spawnCount (simRunH H fuel num_cashiers num_servers num_ushers g) = 449 ∧
        (simRunH H fuel num_cashiers num_servers num_ushers g).customers.length = 452)) := by
  unfold simRunH
  obtain ⟨_, hB⟩ :=
    runUntil_inv H fuel (initSim num_cashiers num_servers num_ushers g)
      (init_invA num_cashiers num_servers num_ushers g)
      (init_invB H num_cashiers num_servers num_ushers g)
  rcases hB with ⟨hev, hcus⟩ | ⟨hH, hfS, hmap, hlen, hbound, gw, hfG, hgwt⟩
  · refine ⟨Or.inl (by rw [hcus]; rfl), ?_, ?_⟩
    · intro a ha
      rw [hcus] at ha
      simp at ha
    · intro hstop hH0
      exfalso
      unfold Stopped step at hstop
      rw [hev] at hstop
      simp [popMin, not_le.2 hH0] at hstop
  · refine ⟨Or.inr hmap, ?_, ?_⟩
    · intro a ha
      rw [hmap] at ha
      unfold arrivalPattern at ha
      rcases List.mem_append.1 ha with h0 | hs
      · simp at h0
        rw [h0]
        exact ⟨le_refl 0, hH⟩
      · obtain ⟨k, hk, rfl⟩ := List.mem_map.1 hs
        exact ⟨stepTime_nonneg k, hbound k (List.mem_range.1 hk)⟩
    · intro hstop hH0
      have hgm : gw ∈ (runUntil H fuel (initSim num_cashiers num_servers num_ushers g)).events := by
        refine List.mem_of_mem_filter (p := isGen) ?_
        rw [hfG]
        exact List.mem_singleton.2 rfl
      have hHgw : H ≤ gw.time := by
        unfold Stopped step at hstop
        cases hpop : popMin (runUntil H fuel (initSim num_cashiers num_servers num_ushers g)).events with
        | none =>
          have := popMin_eq_none.1 hpop
          rw [this] at hgm
          simp at hgm
        | some p =>
          obtain ⟨e, rest⟩ := p
          rw [hpop] at hstop
          by_cases he : H ≤ e.time
          · exact he.trans (evLE_time_le (popMin_min hpop gw hgm))
          · simp [he] at hstop
      rw [hgwt] at hHgw
      have hn5 : (spawnCount (runUntil H fuel (initSim num_cashiers num_servers num_ushers g)) : ℚ)
          < 5 * H := by
        cases hsc : spawnCount (runUntil H fuel (initSim num_cashiers num_servers num_ushers g)) with
        | zero => simpa using by linarith
        | succ m =>
          have := hbound m (by omega)
          unfold stepTime at this
          push_cast
          push_cast at this
          linarith
      have h5H : 5 * H ≤
          (spawnCount (runUntil H fuel (initSim num_cashiers num_servers num_ushers g)) : ℚ) + 1 := by
        unfold stepTime at hHgw
        push_cast at hHgw
        linarith
      have hceil : ⌈5 * H⌉ =
          (spawnCount (runUntil H fuel (initSim num_cashiers num_servers num_ushers g)) : ℤ) + 1 := by
        rw [Int.ceil_eq_iff]
        constructor
        · push_cast
          linarith
        · push_cast
          linarith
      refine ⟨hHgw, hbound, ?_, ?_⟩
      · omega
      · intro h90
        have : (5 : ℚ) * H = 450 := by rw [h90]; norm_num
        rw [this] at hceil
        have h450 : (⌈(450 : ℚ)⌉ : ℤ) = 450 := by norm_num
        rw [h450] at hceil
        unfold spawnCount at hceil ⊢
        omega

/-- Witness for C4 at a concrete run: with one of each staff and the
all-zero random stream, customer 0 finishes at time `41/20`, and the
theorem places the pair `(0, 41/20)` in the departure log. -/
theorem c4_wait_times_accounting_witness :
    ((simRunH 90 30 1 1 1 ⟨fun _ => 0, 0⟩).getCust 0).depart = some ((41 : ℚ)/20) ∧
    (((simRunH 90 30 1 1 1 ⟨fun _ => 0, 0⟩).getCust 0).arrival, (41 : ℚ)/20) ∈
      (simRunH 90 30 1 1 1 ⟨fun _ => 0, 0⟩).doneLog :=
  ⟨by with_unfolding_all decide,
   (c4_wait_times_accounting 30 1 1 1 ⟨fun _ => 0, 0⟩).2.2 0 ((41 : ℚ)/20)
     (by with_unfolding_all decide)⟩

/-- Witness for C7 at a concrete finished run: with horizon `1/5` the run
stops after the three time-zero customers and before any spawn; arrival
`0` lies within the horizon, and the generator's next wake-up is at or
past the horizon. -/
theorem c7_arrival_schedule_witness :
    ((0 : ℚ) ≤ 0 ∧ (0 : ℚ) < 1/5) ∧
    (1 : ℚ)/5 ≤ stepTime (spawnCount (simRunH (1/5) 20 1 1 1 ⟨fun _ => 0, 0⟩)) :=
  ⟨(c7_arrival_schedule (1/5) 20 1 1 1 ⟨fun _ => 0, 0⟩).2.1 0
      (by with_unfolding_all decide),
   ((c7_arrival_schedule (1/5) 20 1 1 1 ⟨fun _ => 0, 0⟩).2.2
      (by with_unfolding_all decide) (by norm_num)).1⟩
